import Mathlib

set_option autoImplicit false

/-!
Verification of the ftm-lakehouse storage and repository layer against its
specification.  The Python sources are shallowly embedded: timestamps
(Python `datetime` values) are modelled as integers, stores as association
lists, generators as lists, and context managers as explicit state passing
with an `Option` error component.
-/

/-- Wall-clock model.  Python `datetime.now()` without a timezone argument
returns the naive local time (the UTC instant plus the local timezone
offset), while `datetime.now(timezone.utc)` returns the UTC instant.  The
clock carries the current UTC instant and the local offset so that both
calls can be embedded. -/
structure Clock where
  utcNow : Int
  tzOffset : Int
deriving Repr, DecidableEq

/-- Naive local wall-clock value, as returned by a bare `datetime.now()`. -/
def Clock.localNow (c : Clock) : Int :=
  c.utcNow + c.tzOffset

/-- Tag storage (src/ftm_lakehouse/storage/tags.py): a key-value store from
string keys to datetime values, modelled as an association list where the
most recent `put` shadows older entries. -/
abbrev TagMap := List (String × Int)

namespace TagStore

/-- Tag lookup (anystore `Store.get` with `raise_on_nonexist=False`):
returns the most recently stored value for the key, or `none`. -/
def get (m : TagMap) (key : String) : Option Int :=
  match m with
  | [] => none
  | (k, v) :: rest => if k = key then some v else get rest key

/-- Tag write (anystore `Store.put`). -/
def put (m : TagMap) (key : String) (value : Int) : TagMap :=
  (key, value) :: m

/-- Key existence check (anystore `Store.exists`). -/
def existsKey (m : TagMap) (key : String) : Bool :=
  (get m key).isSome

/-- Embedding of `TagStore.is_latest` (src/ftm_lakehouse/storage/tags.py,
lines 35-52):

    last_updated = self.get(key)
    if last_updated is None:
        return False
    updated_dependencies = [i for i in map(self.get, dependencies) if i]
    if not updated_dependencies:
        return False
    return all(last_updated > i for i in updated_dependencies)

A Python `datetime` object is always truthy, so the comprehension filter
`if i` drops exactly the `None` entries, which is `filterMap id` here. -/
def is_latest (m : TagMap) (key : String) (dependencies : List String) : Bool :=
  match get m key with
  | none => false
  | some last_updated =>
    let updated_dependencies := (dependencies.map (get m)).filterMap id
    if updated_dependencies.isEmpty then false
    else updated_dependencies.all (fun i => decide (last_updated > i))

/-- Embedding of `TagStore.set` (src/ftm_lakehouse/storage/tags.py, lines
54-58):

    ts = timestamp or datetime.now()
    self.put(key, ts)
    return ts

A `datetime` is always truthy, so `or` falls through exactly on `None`;
the bare `datetime.now()` call yields the naive local time. -/
def set (m : TagMap) (key : String) (timestamp : Option Int) (c : Clock) :
    Int × TagMap :=
  let ts := timestamp.getD c.localNow
  (ts, put m key ts)

/-- Modelled from the spec: the anystore `Tags.touch` context manager is an
external dependency whose code is not part of this repository.  Per the
spec, on scope entry the current UTC instant is captured and on normal
scope exit the tag is committed with that instant (rollback on exception).
This function performs the successful-exit commit. -/
def touchCommit (m : TagMap) (key : String) (c : Clock) : TagMap :=
  put m key c.utcNow

@[simp]
theorem get_put_same (m : TagMap) (k : String) (v : Int) :
    get (put m k v) k = some v := by
  simp [get, put]

@[simp]
theorem get_put_other (m : TagMap) (k k2 : String) (v : Int) (h : k ≠ k2) :
    get (put m k v) k2 = get m k2 := by
  simp [get, put, h]

end TagStore

/-- C1: for every tag key k and collection of dependency keys D,
`TagStore.is_latest(k, D)` returns true if and only if `get(k)` is
non-null, at least one dependency in D has a non-null tag, and `get(k)` is
strictly greater than `get(d)` for every d in D whose tag is non-null; in
particular, when every d in D has a null tag (including when D is empty),
the result is false. -/
theorem c1_is_latest_characterization (m : TagMap) (k : String) (D : List String) :
    TagStore.is_latest m k D = true ↔
      ∃ u, TagStore.get m k = some u
        ∧ (∃ d ∈ D, (TagStore.get m d).isSome)
        ∧ ∀ d ∈ D, ∀ t, TagStore.get m d = some t → t < u := by
  unfold TagStore.is_latest
  cases hk : TagStore.get m k with
  | none =>
    simp only [Bool.false_eq_true, false_iff]
    rintro ⟨u, hu, -⟩
    exact Option.noConfusion hu
  | some u =>
    have hmem : ∀ t : Int, t ∈ (D.map (TagStore.get m)).filterMap id ↔
        ∃ d ∈ D, TagStore.get m d = some t := by
      intro t
      simp [List.mem_filterMap, List.mem_map]
    by_cases hemp : ((D.map (TagStore.get m)).filterMap id).isEmpty
    · simp only [hemp, if_true, Bool.false_eq_true, false_iff]
      rintro ⟨u2, -, ⟨d, hd, hsome⟩, -⟩
      rcases Option.isSome_iff_exists.mp hsome with ⟨t, ht⟩
      have : t ∈ (D.map (TagStore.get m)).filterMap id :=
        (hmem t).mpr ⟨d, hd, ht⟩
      rw [List.isEmpty_iff] at hemp
      simp [hemp] at this
    · simp only [hemp, if_false]
      constructor
      · intro hall
        refine ⟨u, rfl, ?_, ?_⟩
        · rw [List.isEmpty_iff] at hemp
          rcases List.exists_mem_of_ne_nil _ hemp with ⟨t, htmem⟩
          rcases (hmem t).mp htmem with ⟨d, hd, ht⟩
          exact ⟨d, hd, by simp [ht]⟩
        · intro d hd t ht
          have htmem : t ∈ (D.map (TagStore.get m)).filterMap id :=
            (hmem t).mpr ⟨d, hd, ht⟩
          have := List.all_eq_true.mp hall t htmem
          simpa using this
      · rintro ⟨u2, hu2, -, hforall⟩
        have huu : u2 = u := by
          injection hu2 with h
          exact h.symm
        subst huu
        refine List.all_eq_true.mpr ?_
        intro t htmem
        rcases (hmem t).mp htmem with ⟨d, hd, ht⟩
        simpa using hforall d hd t ht

/-- C3 (counterexample): the claim states that `TagStore.set` without a
timestamp argument stamps the tag with the current wall-clock UTC instant.
The code calls the bare `datetime.now()`, which yields naive local time:
with UTC instant 0 and local offset 3600, `set` returns and stores 3600,
not the UTC instant 0. -/
theorem c3_set_not_utc_cex :
    (TagStore.set [] "k" none (Clock.mk 0 3600)).1 ≠ (Clock.mk 0 3600).utcNow := by
  decide

/-- C3 (amended): for every key, `TagStore.set(key)` called without a
timestamp argument stamps the tag with the current naive local wall-clock
time returned by `datetime.now()` (the UTC instant plus the local timezone
offset, not an explicit UTC instant) and returns exactly that timestamp. -/
theorem c3_set_default_is_local_now (m : TagMap) (k : String) (c : Clock) :
    (TagStore.set m k none c).1 = c.utcNow + c.tzOffset
      ∧ TagStore.get (TagStore.set m k none c).2 k = some (c.utcNow + c.tzOffset) := by
  constructor
  · rfl
  · simp [TagStore.set, Clock.localNow]

/-! Tag key constants from src/ftm_lakehouse/core/conventions/tag.py. -/

namespace tag

/-- Statement store was updated. -/
def STATEMENTS_UPDATED : String := "statements/last_updated"

/-- Statement journal was updated. -/
def JOURNAL_UPDATED : String := "journal/last_updated"

/-- Journal store last flushed into statement store (the spec refers to
this tag as `journal/flushed`). -/
def JOURNAL_FLUSHED : String := "journal/last_flushed"

/-- Archive last updated (file added or removed). -/
def ARCHIVE_UPDATED : String := "archive/last_updated"

end tag

/-- Token payload from src/ftm_lakehouse/api/auth.py: allowed HTTP methods
and path prefix patterns (both default to the empty list). -/
structure TokenData where
  methods : List String
  prefixes : List String
deriving Repr, DecidableEq

/-- Python `str.upper()`, restricted to its ASCII behaviour. -/
def pyUpper (s : String) : String :=
  s.map Char.toUpper

/-- Embedding of `TokenData._match_prefix` (src/ftm_lakehouse/api/auth.py):

    if "*" in prefix or "?" in prefix:
        return fnmatch(path, prefix)
    return path.startswith(prefix)

The `fnmatch` routine is a Python standard-library dependency and is
passed in as the parameter `fnm` (first argument the path, second the
pattern). -/
def TokenData.matchPref (fnm : String → String → Bool) (path pat : String) : Bool :=
  if pat.contains '*' || pat.contains '?' then fnm path pat
  else path.startsWith pat

/-- Embedding of `TokenData.allows` (src/ftm_lakehouse/api/auth.py, lines
69-85):

    if "*" not in self.methods and method.upper() not in self.methods:
        return False
    return any(self._match_prefix(path, prefix) for prefix in self.prefixes)
-/
def TokenData.allows (fnm : String → String → Bool) (td : TokenData)
    (method path : String) : Bool :=
  if !(td.methods.contains "*") && !(td.methods.contains (pyUpper method)) then
    false
  else
    td.prefixes.any (fun p => TokenData.matchPref fnm path p)

/-- C9: for every token data with method list M and prefix list P and every
request with method m and path p, `TokenData.allows(m, p)` returns true iff
("*" is in M or m.upper() is in M) and some prefix q in P matches p, where
a q containing "*" or "?" matches via fnmatch and any other q matches when
p starts with q; moreover a token with an empty prefix list permits
nothing. -/
theorem c9_allows_characterization (fnm : String → String → Bool)
    (td : TokenData) (m p : String) :
    (TokenData.allows fnm td m p = true ↔
      (("*" ∈ td.methods ∨ pyUpper m ∈ td.methods)
        ∧ ∃ q ∈ td.prefixes,
            (if q.contains '*' || q.contains '?' then fnm p q
             else p.startsWith q) = true))
    ∧ TokenData.allows fnm (TokenData.mk td.methods []) m p = false := by
  have hcontains : ∀ (l : List String) (a : String), l.contains a = true ↔ a ∈ l :=
    fun _ _ => List.elem_iff
  constructor
  · unfold TokenData.allows TokenData.matchPref
    by_cases hstar : "*" ∈ td.methods
    · have hb : td.methods.contains "*" = true := (hcontains _ _).mpr hstar
      simp [hb, hstar, List.any_eq_true]
    · have hb : td.methods.contains "*" = false := by
        rw [Bool.eq_false_iff]
        intro hc
        exact hstar ((hcontains _ _).mp hc)
      by_cases hup : pyUpper m ∈ td.methods
      · have hb2 : td.methods.contains (pyUpper m) = true := (hcontains _ _).mpr hup
        simp [hb, hb2, hup, List.any_eq_true]
      · have hb2 : td.methods.contains (pyUpper m) = false := by
          rw [Bool.eq_false_iff]
          intro hc
          exact hup ((hcontains _ _).mp hc)
        simp [hb, hb2, hstar, hup]
  · unfold TokenData.allows
    cases hb : td.methods.contains "*" <;>
      cases hb2 : td.methods.contains (pyUpper m) <;>
        simp [hb, hb2]

/-- Ontology schema model: the followthemoney library is an external
dependency, so a schema is abstracted to its name and its `is_a` ancestry
(in the library, `is_a` is reflexive, so a schema is included in its own
ancestry). -/
structure FtmSchema where
  name : String
  ancestry : List String
deriving Repr, DecidableEq

/-- Schema ancestry test (`Schema.is_a` from followthemoney). -/
def FtmSchema.isA (s : FtmSchema) (other : String) : Bool :=
  s.ancestry.contains other

/-- Statement fields consumed by the CDC change filters. -/
structure CdcStmt where
  schema : String
  prop : String
  entity_id : String
deriving Repr, DecidableEq

/-- Single step of the `DocumentRepository._filter_changes` loop
(src/ftm_lakehouse/repository/documents.py, lines 119-131):

    for _, change_type, stmt in changes:
        if change_type in ("insert", "update_postimage"):
            schema = model.get(stmt.schema)
            if schema and schema.is_a("Document") and not schema.name == "Folder":
                if stmt.prop == "contentHash":
                    changed_entity_ids.add(stmt.entity_id)

The ontology lookup `model.get` is the parameter `reg`; a schema object is
truthy exactly when the lookup did not return `None`.  The Python set is
modelled as a duplicate-free list, `add` inserting only absent members. -/
def filterChangesStep (reg : String → Option FtmSchema)
    (acc : List String) (chg : Int × String × CdcStmt) : List String :=
  if chg.2.1 = "insert" ∨ chg.2.1 = "update_postimage" then
    match reg chg.2.2.schema with
    | some schema =>
      if schema.isA "Document" && !(schema.name == "Folder") then
        if chg.2.2.prop = "contentHash" then
          if chg.2.2.entity_id ∈ acc then acc else chg.2.2.entity_id :: acc
        else acc
      else acc
    | none => acc
  else acc

/-- Embedding of `DocumentRepository._filter_changes`: folds
`filterChangesStep` over the streamed CDC change tuples
`(ts, change_type, stmt)`, starting from the empty set. -/
def DocumentRepository.filter_changes (reg : String → Option FtmSchema)
    (changes : List (Int × String × CdcStmt)) : List String :=
  changes.foldl (filterChangesStep reg) []

/-- Relevance predicate for the document diff, stated from the claim: the
change is an insert or update_postimage, its statement schema resolves to
a schema that is Document or a descendant of Document but not Folder, and
the changed property is contentHash. -/
def docChangeRelevant (reg : String → Option FtmSchema)
    (chg : Int × String × CdcStmt) : Prop :=
  (chg.2.1 = "insert" ∨ chg.2.1 = "update_postimage")
    ∧ (∃ s, reg chg.2.2.schema = some s
        ∧ s.isA "Document" = true ∧ ¬ s.name = "Folder")
    ∧ chg.2.2.prop = "contentHash"

theorem mem_filterChangesStep (reg : String → Option FtmSchema)
    (acc : List String) (chg : Int × String × CdcStmt) (x : String) :
    x ∈ filterChangesStep reg acc chg ↔
      x ∈ acc ∨ (docChangeRelevant reg chg ∧ chg.2.2.entity_id = x) := by
  unfold filterChangesStep docChangeRelevant
  by_cases h1 : chg.2.1 = "insert" ∨ chg.2.1 = "update_postimage"
  · rw [if_pos h1]
    cases hreg : reg chg.2.2.schema with
    | none =>
      dsimp only
      constructor
      · exact fun hx => Or.inl hx
      · rintro (hx | ⟨⟨-, ⟨s, hs, -, -⟩, -⟩, -⟩)
        · exact hx
        · exact Option.noConfusion hs
    | some schema =>
      dsimp only
      by_cases h2 : (schema.isA "Document" && !(schema.name == "Folder")) = true
      · rw [if_pos h2]
        rcases Bool.and_eq_true_iff.mp h2 with ⟨hisa, hnb⟩
        have hnf : ¬ schema.name = "Folder" := by
          simpa using hnb
        by_cases h3 : chg.2.2.prop = "contentHash"
        · rw [if_pos h3]
          by_cases h4 : chg.2.2.entity_id ∈ acc
          · rw [if_pos h4]
            constructor
            · exact fun hx => Or.inl hx
            · rintro (hx | ⟨-, rfl⟩)
              · exact hx
              · exact h4
          · rw [if_neg h4]
            rw [List.mem_cons]
            constructor
            · rintro (rfl | hx)
              · exact Or.inr ⟨⟨h1, ⟨schema, rfl, hisa, hnf⟩, h3⟩, rfl⟩
              · exact Or.inl hx
            · rintro (hx | ⟨-, rfl⟩)
              · exact Or.inr hx
              · exact Or.inl rfl
        · rw [if_neg h3]
          constructor
          · exact fun hx => Or.inl hx
          · rintro (hx | ⟨⟨-, -, hprop⟩, -⟩)
            · exact hx
            · exact absurd hprop h3
      · rw [if_neg h2]
        constructor
        · exact fun hx => Or.inl hx
        · rintro (hx | ⟨⟨-, ⟨s, hs, hisa, hnf⟩, -⟩, -⟩)
          · exact hx
          · injection hs with hs
            subst hs
            exact absurd (by simp [hisa, hnf]) h2
  · rw [if_neg h1]
    constructor
    · exact fun hx => Or.inl hx
    · rintro (hx | ⟨⟨hct, -, -⟩, -⟩)
      · exact hx
      · exact absurd hct h1

theorem mem_filterChanges_foldl (reg : String → Option FtmSchema)
    (changes : List (Int × String × CdcStmt)) (acc : List String) (x : String) :
    x ∈ changes.foldl (filterChangesStep reg) acc ↔
      x ∈ acc ∨ ∃ chg ∈ changes, docChangeRelevant reg chg ∧ chg.2.2.entity_id = x := by
  induction changes generalizing acc with
  | nil => simp
  | cons c rest ih =>
    rw [List.foldl_cons, ih, mem_filterChangesStep]
    constructor
    · rintro ((hx | hc) | ⟨chg, hchg, hrel⟩)
      · exact Or.inl hx
      · exact Or.inr ⟨c, List.mem_cons_self c rest, hc⟩
      · exact Or.inr ⟨chg, List.mem_cons_of_mem c hchg, hrel⟩
    · rintro (hx | ⟨chg, hchg, hrel⟩)
      · exact Or.inl (Or.inl hx)
      · rcases List.mem_cons.mp hchg with rfl | hmem
        · exact Or.inl (Or.inr hrel)
        · exact Or.inr ⟨chg, hmem, hrel⟩

/-- C8: for every stream of CDC change tuples,
`DocumentRepository._filter_changes` returns exactly the set of entity ids
of statements whose change type is insert or update_postimage, whose
schema is Document or a descendant of Document but not Folder, and whose
property is contentHash; update_preimage and delete changes, non-Document
schemas, and other properties never contribute an entity id. -/
theorem c8_document_filter_changes (reg : String → Option FtmSchema)
    (changes : List (Int × String × CdcStmt)) (x : String) :
    x ∈ DocumentRepository.filter_changes reg changes ↔
      ∃ chg ∈ changes,
        (chg.2.1 = "insert" ∨ chg.2.1 = "update_postimage")
        ∧ (∃ s, reg chg.2.2.schema = some s
            ∧ s.isA "Document" = true ∧ ¬ s.name = "Folder")
        ∧ chg.2.2.prop = "contentHash"
        ∧ chg.2.2.entity_id = x := by
  unfold DocumentRepository.filter_changes
  rw [mem_filterChanges_foldl]
  simp only [List.not_mem_nil, false_or]
  constructor
  · rintro ⟨chg, hchg, ⟨hct, hschema, hprop⟩, hid⟩
    exact ⟨chg, hchg, hct, hschema, hprop, hid⟩
  · rintro ⟨chg, hchg, hct, hschema, hprop, hid⟩
    exact ⟨chg, hchg, ⟨hct, hschema, hprop⟩, hid⟩

/-- Outcome of a `DatasetJobOperation.run` invocation: either the job was
stopped and returned as-is before the handle routine ran (freshness skip),
or the handle routine completed normally and the target tag was committed,
or the handle routine raised and the exception propagates with the target
tag rolled back. -/
inductive RunOutcome (σ ε : Type) where
  | skipped (tags : TagMap) (st : σ)
  | completed (tags : TagMap) (st : σ)
  | failed (tags : TagMap) (st : σ) (e : ε)
deriving Repr, DecidableEq

/-- Embedding of `DatasetJobOperation.run` (src/ftm_lakehouse/operation/base.py,
lines 83-120):

    if not force:
        if target and dependencies:
            if self.tags.is_latest(target, dependencies):
                self.job.stop()
                return self.job
    with self.jobs.run(self.job) as run, self.tags.touch(target) as now:
        _ = self.handle(run, *args, force=force, **kwargs)
    ...

The handle routine is the parameter `handle`, a state transformer returning
the state at exit together with an optional raised exception (`none` for
normal completion).  Modelled from the spec: `jobs.run` (repository/job.py,
not part of src/) records the job run, and the anystore `tags.touch` scope
commits the target tag with the UTC instant captured at scope entry on
normal exit and rolls it back when the body raises.  Python truthiness of
`target` is non-emptiness of the string and of `dependencies`
non-emptiness of the list. -/
def DatasetJobOperation.run {σ ε : Type} (handle : σ → σ × Option ε)
    (target : String) (dependencies : List String) (force : Bool)
    (tags : TagMap) (st : σ) (c : Clock) : RunOutcome σ ε :=
  let execute : RunOutcome σ ε :=
    match handle st with
    | (st2, none) => RunOutcome.completed (TagStore.touchCommit tags target c) st2
    | (st2, some e) => RunOutcome.failed tags st2 e
  if force = false then
    if target ≠ "" ∧ dependencies ≠ [] then
      if TagStore.is_latest tags target dependencies then
        RunOutcome.skipped tags st
      else execute
    else execute
  else execute

/-- C2: for every DatasetJobOperation with a non-empty target tag and a
non-empty dependency list, `run(force=False)` when
`tags.is_latest(target, dependencies)` is true stops the job and returns
it without invoking the handle routine and with the tag store untouched;
in every other case (force true, empty target, empty dependencies, or
`is_latest` false) the handle routine is executed and, on normal
completion, the target tag is committed (with the UTC instant captured at
scope entry); when the handle raises, the exception propagates and the
target tag is not committed. -/
theorem c2_run_dependency_gating {σ ε : Type} (handle : σ → σ × Option ε)
    (target : String) (dependencies : List String) (force : Bool)
    (tags : TagMap) (st : σ) (c : Clock) :
    (force = false → target ≠ "" → dependencies ≠ [] →
      TagStore.is_latest tags target dependencies = true →
      DatasetJobOperation.run handle target dependencies force tags st c
        = RunOutcome.skipped tags st)
    ∧ ((force = true ∨ target = "" ∨ dependencies = []
          ∨ TagStore.is_latest tags target dependencies = false) →
        (∀ st2, handle st = (st2, none) →
          DatasetJobOperation.run handle target dependencies force tags st c
            = RunOutcome.completed (TagStore.put tags target c.utcNow) st2
          ∧ TagStore.get (TagStore.put tags target c.utcNow) target = some c.utcNow)
        ∧ (∀ st2 e, handle st = (st2, some e) →
          DatasetJobOperation.run handle target dependencies force tags st c
            = RunOutcome.failed tags st2 e)) := by
  unfold DatasetJobOperation.run
  constructor
  · intro hf ht hd hl
    subst hf
    rw [if_pos rfl, if_pos ⟨ht, hd⟩, if_pos hl]
  · intro hother
    have hexec : (if force = false then
        if target ≠ "" ∧ dependencies ≠ [] then
          if TagStore.is_latest tags target dependencies then
            RunOutcome.skipped tags st
          else
            match handle st with
            | (st2, none) => RunOutcome.completed (TagStore.touchCommit tags target c) st2
            | (st2, some e) => RunOutcome.failed tags st2 e
        else
          match handle st with
          | (st2, none) => RunOutcome.completed (TagStore.touchCommit tags target c) st2
          | (st2, some e) => RunOutcome.failed tags st2 e
      else
        match handle st with
        | (st2, none) => RunOutcome.completed (TagStore.touchCommit tags target c) st2
        | (st2, some e) => RunOutcome.failed tags st2 e)
      = (match handle st with
        | (st2, none) => RunOutcome.completed (TagStore.touchCommit tags target c) st2
        | (st2, some e) => RunOutcome.failed tags st2 e) := by
      rcases hother with hf | ht | hd | hl
      · rw [if_neg (by simp [hf])]
      · by_cases hf : force = false
        · rw [if_pos hf, if_neg (by simp [ht])]
        · rw [if_neg hf]
      · by_cases hf : force = false
        · rw [if_pos hf, if_neg (by simp [hd])]
        · rw [if_neg hf]
      · by_cases hf : force = false
        · by_cases htd : target ≠ "" ∧ dependencies ≠ []
          · rw [if_pos hf, if_pos htd, if_neg (by simp [hl])]
          · rw [if_pos hf, if_neg htd]
        · rw [if_neg hf]
    constructor
    · intro st2 hh
      rw [hexec, hh]
      exact ⟨rfl, TagStore.get_put_same tags target c.utcNow⟩
    · intro st2 e hh
      rw [hexec, hh]

/-- C2 witness: with tag store `[(t, 5), (d, 3)]` the target `t` is fresher
than the dependency `d`, so a non-forced run is skipped with the store
untouched; with tag store `[(d, 3)]` the target tag is missing, so the
handle (a successor function on a counter) executes and the target tag is
committed with the scope-entry UTC instant. -/
theorem c2_run_dependency_gating_witness :
    DatasetJobOperation.run (σ := Nat) (ε := Unit) (fun n => (n + 1, none))
        "t" ["d"] false [("t", 5), ("d", 3)] 0 (Clock.mk 9 1)
      = RunOutcome.skipped [("t", 5), ("d", 3)] 0
    ∧ DatasetJobOperation.run (σ := Nat) (ε := Unit) (fun n => (n + 1, none))
        "t" ["d"] false [("d", 3)] 0 (Clock.mk 9 1)
      = RunOutcome.completed [("t", 9), ("d", 3)] 1 := by
  constructor
  · exact (c2_run_dependency_gating (fun n => (n + 1, none)) "t" ["d"] false
      [("t", 5), ("d", 3)] 0 (Clock.mk 9 1)).1 rfl (by decide) (by decide) (by decide)
  · exact ((c2_run_dependency_gating (fun n => (n + 1, none)) "t" ["d"] false
      [("d", 3)] 0 (Clock.mk 9 1)).2 (Or.inr (Or.inr (Or.inr (by decide))))).1 1 rfl |>.1

/-- Journal writer state.  Modelled from the spec: storage/journal.py is not
part of src/ (only its importers are).  Per spec section 4.2 the writer is a
batching context over the journal table: `add_statement` enqueues one row
into the pending batch, `flush` commits the pending batch into the table,
`rollback` discards the pending batch, and `close` finalises the writer. -/
structure JournalWriter (α : Type) where
  pending : List α
  committed : List α
  closed : Bool
deriving Repr, DecidableEq

namespace JournalWriter

/-- Enqueue one statement into the pending batch. -/
def add_statement {α : Type} (w : JournalWriter α) (s : α) : JournalWriter α :=
  { w with pending := w.pending ++ [s] }

/-- Commit the pending batch into the journal table. -/
def flush {α : Type} (w : JournalWriter α) : JournalWriter α :=
  { pending := [], committed := w.committed ++ w.pending, closed := w.closed }

/-- Discard the pending batch. -/
def rollback {α : Type} (w : JournalWriter α) : JournalWriter α :=
  { w with pending := [] }

/-- Finalise the writer. -/
def close {α : Type} (w : JournalWriter α) : JournalWriter α :=
  { w with closed := true }

end JournalWriter

/-- Result of an `EntityRepository.bulk` scope: the re-raised exception (if
any), the final journal writer state, and the final tag store. -/
structure BulkResult (α ε : Type) where
  error : Option ε
  writer : JournalWriter α
  tags : TagMap
deriving Repr, DecidableEq

/-- Embedding of `EntityRepository.bulk`
(src/ftm_lakehouse/repository/entities.py, lines 67-86):

    writer = self._journal.writer(origin)
    try:
        yield writer
    except BaseException:
        writer.rollback()
        raise
    else:
        writer.flush()
    finally:
        writer.close()
        self._tags.set(tag.JOURNAL_UPDATED)

The scope body is the parameter `body`, returning the writer state at
scope exit together with an optional raised exception; `journalRows` are
the rows already committed in the journal table when the writer is
acquired. -/
def EntityRepository.bulk {α ε : Type} (body : JournalWriter α → JournalWriter α × Option ε)
    (journalRows : List α) (tags : TagMap) (c : Clock) : BulkResult α ε :=
  let writer : JournalWriter α :=
    { pending := [], committed := journalRows, closed := false }
  match body writer with
  | (w1, none) =>
    { error := none
      writer := w1.flush.close
      tags := (TagStore.set tags tag.JOURNAL_UPDATED none c).2 }
  | (w1, some e) =>
    { error := some e
      writer := w1.rollback.close
      tags := (TagStore.set tags tag.JOURNAL_UPDATED none c).2 }

/-- C7: for every use of `EntityRepository.bulk`, if the scope body exits
normally the journal writer's pending batch is flushed (appended to the
committed journal rows) and the journal/last_updated tag is set; if the
scope body raises, the pending batch is rolled back (the committed rows
are exactly those already committed when the body finished, none from the
discarded batch) and the exception is re-raised; on every exit path the
writer is closed. -/
theorem c7_bulk_commit_rollback {α ε : Type}
    (body : JournalWriter α → JournalWriter α × Option ε)
    (journalRows : List α) (tags : TagMap) (c : Clock) :
    (∀ w1, body { pending := [], committed := journalRows, closed := false } = (w1, none) →
      EntityRepository.bulk body journalRows tags c
        = { error := none
            writer := { pending := [], committed := w1.committed ++ w1.pending, closed := true }
            tags := TagStore.put tags tag.JOURNAL_UPDATED c.localNow })
    ∧ (∀ w1 e, body { pending := [], committed := journalRows, closed := false } = (w1, some e) →
      EntityRepository.bulk body journalRows tags c
        = { error := some e
            writer := { pending := [], committed := w1.committed, closed := true }
            tags := TagStore.put tags tag.JOURNAL_UPDATED c.localNow }) := by
  constructor
  · intro w1 hb
    unfold EntityRepository.bulk
    dsimp only
    rw [hb]
    simp [JournalWriter.flush, JournalWriter.close, TagStore.set, TagStore.put,
      Clock.localNow]
  · intro w1 e hb
    unfold EntityRepository.bulk
    dsimp only
    rw [hb]
    simp [JournalWriter.rollback, JournalWriter.close, TagStore.set, TagStore.put,
      Clock.localNow]

/-- C7 witness: a body that enqueues the statement 1 and exits normally
commits it to the journal and sets the journal/last_updated tag; a body
that enqueues 2 and raises discards the batch, leaving the journal rows
unchanged, and re-raises. -/
theorem c7_bulk_commit_rollback_witness :
    EntityRepository.bulk (α := Nat) (ε := Unit)
        (fun w => (w.add_statement 1, none)) [0] [] (Clock.mk 4 2)
      = { error := none
          writer := { pending := [], committed := [0, 1], closed := true }
          tags := [(tag.JOURNAL_UPDATED, 6)] }
    ∧ EntityRepository.bulk (α := Nat) (ε := Unit)
        (fun w => (w.add_statement 2, some ())) [0] [] (Clock.mk 4 2)
      = { error := some ()
          writer := { pending := [], committed := [0], closed := true }
          tags := [(tag.JOURNAL_UPDATED, 6)] } := by
  constructor
  · exact (c7_bulk_commit_rollback (fun w => (w.add_statement 1, none))
      [0] [] (Clock.mk 4 2)).1 _ rfl
  · exact (c7_bulk_commit_rollback (fun w => (w.add_statement 2, some ()))
      [0] [] (Clock.mk 4 2)).2 _ () rfl

/-- Generic keyed object store (anystore `Store`), modelled as an
association list where the most recent `put` shadows older entries. -/
def KVStore.get {γ : Type} (m : List (String × γ)) (key : String) : Option γ :=
  match m with
  | [] => none
  | (k, v) :: rest => if k = key then some v else KVStore.get rest key

/-- Object write (anystore `Store.put`). -/
def KVStore.put {γ : Type} (m : List (String × γ)) (key : String) (value : γ) :
    List (String × γ) :=
  (key, value) :: m

@[simp]
theorem KVStore.get_put_key {γ : Type} (m : List (String × γ)) (k : String) (v : γ) :
    KVStore.get (KVStore.put m k v) k = some v := by
  simp [KVStore.get, KVStore.put]

/-! Path conventions from src/ftm_lakehouse/core/conventions/path.py and
src/ftm_lakehouse/util.py. -/

namespace path

/-- Embedding of `make_checksum_key` (src/ftm_lakehouse/util.py): splits a
SHA-1 checksum into `ab/cd/ef/<checksum>`.  The `ValueError` guard on the
40-character length is not modelled; no claim depends on it. -/
def make_checksum_key (ch : String) : String :=
  ch.take 2 ++ "/" ++ (ch.drop 2).take 2 ++ "/" ++ (ch.drop 4).take 2 ++ "/" ++ ch

/-- Archive directory for a checksum:
`archive/ab/cd/ef/<checksum>` (path.archive_prefix). -/
def archivePref (checksum : String) : String :=
  "archive/" ++ make_checksum_key checksum

/-- Blob path for a checksum: `archive/ab/cd/ef/<checksum>/blob`. -/
def archive_blob (checksum : String) : String :=
  archivePref checksum ++ "/blob"

/-- Metadata path for a file record:
`archive/ab/cd/ef/<checksum>/<file_id>.json`. -/
def archive_meta (checksum : String) (file_id : String) : String :=
  archivePref checksum ++ "/" ++ file_id ++ ".json"

end path

/-- File metadata record.  Modelled from the spec: the File model
(model/file.py) is not part of src/; per the spec it carries the source
key, the content checksum, the owning dataset and the store URI, and its
`file_id = "file-" + hash(source_path ++ checksum)` disambiguates multiple
metadata records per checksum.  The content hash routine is the
parameter `dataHash`. -/
structure ArchFile where
  key : String
  checksum : String
  dataset : String
  store : String
deriving Repr, DecidableEq

/-- File id: `"file-" + hash(source_path ++ checksum)`. -/
def ArchFile.fileId (dataHash : String → String → String) (f : ArchFile) : String :=
  "file-" ++ dataHash f.key f.checksum

/-- Metadata path of the record inside the archive
(`File.meta_path`, used by `ArchiveRepository.store`). -/
def ArchFile.meta_path (dataHash : String → String → String) (f : ArchFile) : String :=
  path.archive_meta f.checksum (f.fileId dataHash)

/-- Archive repository state (src/ftm_lakehouse/repository/archive.py):
content-addressed blob objects, metadata records and the tag store.  Blob
contents have the abstract type `β`; `sha1` below computes their
checksum. -/
structure Archive (β : Type) where
  blobs : List (String × β)
  metas : List (String × ArchFile)
  tags : TagMap
deriving Repr, DecidableEq

namespace ArchiveRepository

/-- Embedding of `ArchiveRepository.exists`: checks blob presence at the
content-addressed blob path. -/
def existsBlob {β : Type} (a : Archive β) (checksum : String) : Bool :=
  (KVStore.get a.blobs (path.archive_blob checksum)).isSome

/-- Embedding of `ArchiveRepository.write_blob`
(src/ftm_lakehouse/repository/archive.py, lines 202-215):

    if checksum and self.exists(checksum):
        return checksum
    if not checksum:
        checksum = make_checksum(fh)
        if self.exists(checksum):
            return checksum
        fh.seek(0)
    with self._store.open(path.archive_blob(checksum), "wb") as out:
        stream(fh, out, CHUNK_SIZE_LARGE)
    return checksum

Note the write targets `path.archive_blob(checksum)` with the checksum
argument when one was passed. -/
def write_blob {β : Type} (sha1 : β → String) (a : Archive β) (content : β)
    (checksum : Option String) : String × Archive β :=
  match checksum with
  | some ch =>
    if existsBlob a ch then (ch, a)
    else (ch, { a with blobs := KVStore.put a.blobs (path.archive_blob ch) content })
  | none =>
    let ch := sha1 content
    if existsBlob a ch then (ch, a)
    else (ch, { a with blobs := KVStore.put a.blobs (path.archive_blob ch) content })

/-- Embedding of `ArchiveRepository.store_blob`
(src/ftm_lakehouse/repository/archive.py, lines 176-200):

    if checksum and self.exists(checksum):
        return checksum
    with open_virtual(uri) as fh:
        if self.exists(fh.checksum):
            return fh.checksum
        self.write_blob(fh, checksum)
        return fh.checksum

The parameter `read` models `open_virtual` (streaming the source URI into
a handle), and `fh.checksum = sha1 (read uri)`. -/
def store_blob {β : Type} (sha1 : β → String) (read : String → β) (a : Archive β)
    (uri : String) (checksum : Option String) : String × Archive β :=
  let rest : String × Archive β :=
    let content := read uri
    let fhChecksum := sha1 content
    if existsBlob a fhChecksum then (fhChecksum, a)
    else (fhChecksum, (write_blob sha1 a content checksum).2)
  match checksum with
  | some ch => if existsBlob a ch then (ch, a) else rest
  | none => rest

/-- Embedding of `ArchiveRepository.store`
(src/ftm_lakehouse/repository/archive.py, lines 122-174):

    checksum = self.store_blob(uri, checksum)
    if file is None:
        info = resource.info()
        file = File.from_info(info, checksum)
    file.checksum = checksum
    ...
    file.store = str(self.uri)
    file.dataset = self.dataset
    self._files.put(file.meta_path, file)
    self._tags.set(tag.ARCHIVE_UPDATED)
    return file

The parameter `mkFile` models `File.from_info(resource.info(), checksum)`
for the source URI; the `**metadata` keyword merging into `file.extra` is
not modelled (an empty metadata mapping). -/
def store {β : Type} (sha1 : β → String) (read : String → β)
    (dataHash : String → String → String) (mkFile : String → String → ArchFile)
    (datasetName storeUri : String) (a : Archive β) (uri : String)
    (file : Option ArchFile) (checksum : Option String) (c : Clock) :
    ArchFile × Archive β :=
  let r := store_blob sha1 read a uri checksum
  let file0 := match file with
    | some f => f
    | none => mkFile uri r.1
  let file1 := { file0 with checksum := r.1, store := storeUri, dataset := datasetName }
  let a2 := { r.2 with metas := KVStore.put r.2.metas (file1.meta_path dataHash) file1 }
  let a3 := { a2 with tags := (TagStore.set a2.tags tag.ARCHIVE_UPDATED none c).2 }
  (file1, a3)

end ArchiveRepository

/-- C6: for every checksum already present in the archive, re-ingesting
content with that checksum leaves the blob store unchanged:
`store_blob` (whether the checksum is passed in or recomputed from the
source bytes) returns that checksum without writing anything, while
`store` still writes a metadata record for the source path at the file's
metadata path and sets the archive/last_updated tag. -/
theorem c6_store_write_once {β : Type} (sha1 : β → String) (read : String → β)
    (dataHash : String → String → String) (mkFile : String → String → ArchFile)
    (datasetName storeUri : String) (a : Archive β) (uri : String)
    (file : Option ArchFile) (checksum : Option String) (ch : String) (c : Clock)
    (hexists : ArchiveRepository.existsBlob a ch = true)
    (hsha : sha1 (read uri) = ch)
    (harg : checksum = some ch ∨ checksum = none) :
    ArchiveRepository.store_blob sha1 read a uri checksum = (ch, a)
    ∧ (ArchiveRepository.store sha1 read dataHash mkFile datasetName storeUri
          a uri file checksum c).2.blobs = a.blobs
    ∧ KVStore.get
        (ArchiveRepository.store sha1 read dataHash mkFile datasetName storeUri
          a uri file checksum c).2.metas
        ((ArchiveRepository.store sha1 read dataHash mkFile datasetName storeUri
          a uri file checksum c).1.meta_path dataHash)
        = some (ArchiveRepository.store sha1 read dataHash mkFile datasetName storeUri
          a uri file checksum c).1
    ∧ TagStore.get (ArchiveRepository.store sha1 read dataHash mkFile datasetName storeUri
          a uri file checksum c).2.tags tag.ARCHIVE_UPDATED = some c.localNow := by
  have hblob : ArchiveRepository.store_blob sha1 read a uri checksum = (ch, a) := by
    unfold ArchiveRepository.store_blob
    rcases harg with rfl | rfl
    · dsimp only
      rw [if_pos hexists]
    · dsimp only
      rw [hsha, if_pos hexists]
  refine ⟨hblob, ?_, ?_, ?_⟩
  · unfold ArchiveRepository.store
    rw [hblob]
  · unfold ArchiveRepository.store
    rw [hblob]
    dsimp only
    exact KVStore.get_put_key _ _ _
  · unfold ArchiveRepository.store
    rw [hblob]
    dsimp only
    simp [TagStore.set, Clock.localNow]

/-- C6 witness: an archive already holding the blob for checksum "cs"
(content 7); re-ingesting content 7 from a new source path writes no blob,
returns "cs" from store_blob, records the metadata and advances the
archive/last_updated tag. -/
theorem c6_store_write_once_witness :
    ArchiveRepository.store_blob (β := Nat) (fun _ => "cs") (fun _ => 7)
        (Archive.mk [(path.archive_blob "cs", 7)] [] []) "src2/b.txt" (some "cs")
      = ("cs", Archive.mk [(path.archive_blob "cs", 7)] [] [])
    ∧ (ArchiveRepository.store (β := Nat) (fun _ => "cs") (fun _ => 7)
        (fun _ _ => "h") (fun u ch => ArchFile.mk u ch "" "")
        "ds" "mem://lake" (Archive.mk [(path.archive_blob "cs", 7)] [] [])
        "src2/b.txt" none (some "cs") (Clock.mk 3 0)).2.blobs
      = [(path.archive_blob "cs", 7)] := by
  have h := c6_store_write_once (β := Nat) (fun _ => "cs") (fun _ => 7)
    (fun _ _ => "h") (fun u ch => ArchFile.mk u ch "" "")
    "ds" "mem://lake" (Archive.mk [(path.archive_blob "cs", 7)] [] [])
    "src2/b.txt" none (some "cs") "cs" (Clock.mk 3 0)
    (by decide) rfl (Or.inl rfl)
  exact ⟨h.1, h.2.1⟩

/-- Journal row as streamed by `JournalStore.flush()`: a tuple
`(id, bucket, origin, canonical_id, data)` with the packed statement body
`data` of abstract type `α`. -/
structure JRow (α : Type) where
  id : String
  bucket : String
  origin : String
  canonical_id : String
  data : α
deriving Repr, DecidableEq

/-- Partition key and payload of a journal row. -/
def JRow.rowKey {α : Type} (r : JRow α) : String × String × α :=
  (r.bucket, r.origin, r.data)

/-- Record of one parquet writer lifetime during a flush: the
current bucket and the origin the writer was opened for, and the
statements it received (in order) before being flushed. -/
abbrev FlushEvent (α : Type) := String × String × List α

/-- Statements of a writer annotated with its partition. -/
def expandEvent {α : Type} (e : FlushEvent α) : List (String × String × α) :=
  e.2.2.map (fun d => (e.1, e.2.1, d))

/-- Expansion of the open-writer loop state. -/
def stExpand {α : Type} : Option (FlushEvent α) → List (String × String × α)
  | none => []
  | some e => expandEvent e

namespace EntityRepository

/-- Embedding of the loop body of `EntityRepository.flush`
(src/ftm_lakehouse/repository/entities.py, lines 123-144):

    total_count = 0
    current_bucket: str | None = None
    current_origin: str | None = None
    bulk = None
    for _, bucket, origin, _, data in self._journal.flush():
        if bucket != current_bucket or origin != current_origin:
            if bulk is not None:
                bulk.flush()
            current_bucket = bucket
            current_origin = origin
            bulk = self._statements.writer(origin)
        assert bulk is not None
        stmt = unpack_statement(data)
        bulk.add_statement(stmt)
        total_count += 1
    if bulk is not None:
        bulk.flush()

`current_bucket`, `current_origin` and `bulk` are `None` together before
the first row and are updated together, so they are combined into one
optional state `(current_bucket, current_origin, statements in the open
writer)`.  The result lists the flushed writers in order (each as its
partition and received statements, the final flush included) together
with `total_count`. -/
def flushLoop {α : Type} :
    List (JRow α) → Option (FlushEvent α) → List (FlushEvent α) → Nat →
      List (FlushEvent α) × Nat
  | [], none, acc, n => (acc, n)
  | [], some st, acc, n => (acc ++ [st], n)
  | r :: rest, none, acc, n =>
    flushLoop rest (some (r.bucket, r.origin, [r.data])) acc (n + 1)
  | r :: rest, some (b, o, batch), acc, n =>
    if r.bucket = b ∧ r.origin = o then
      flushLoop rest (some (b, o, batch ++ [r.data])) acc (n + 1)
    else
      flushLoop rest (some (r.bucket, r.origin, [r.data])) (acc ++ [(b, o, batch)]) (n + 1)

/-- Embedding of `EntityRepository.flush`
(src/ftm_lakehouse/repository/entities.py, lines 101-154):

    if self._journal.count() == 0:
        if not self._tags.exists(tag.JOURNAL_FLUSHED):
            self._tags.set(tag.JOURNAL_FLUSHED)
        if not self._tags.exists(tag.STATEMENTS_UPDATED):
            self._tags.set(tag.STATEMENTS_UPDATED)
        return 0
    with self._tags.touch(tag.JOURNAL_FLUSHED), Took() as t:
        ... loop (flushLoop) ...
        self._tags.set(tag.STATEMENTS_UPDATED)
        return total_count

The journal rows streamed by `self._journal.flush()` are the parameter
`rows` and `self._journal.count()` is their number.  Returns the count,
the resulting tag store, and the writer trace.  On the non-empty path the
statements/last_updated tag is set inside the scope (bare `datetime.now()`,
local time) and the journal/last_flushed tag is committed by the touch
scope on exit with the UTC instant captured at entry. -/
def flush {α : Type} (rows : List (JRow α)) (tags : TagMap) (c : Clock) :
    Nat × TagMap × List (FlushEvent α) :=
  if rows.length = 0 then
    let t1 := if TagStore.existsKey tags tag.JOURNAL_FLUSHED then tags
      else (TagStore.set tags tag.JOURNAL_FLUSHED none c).2
    let t2 := if TagStore.existsKey t1 tag.STATEMENTS_UPDATED then t1
      else (TagStore.set t1 tag.STATEMENTS_UPDATED none c).2
    (0, t2, [])
  else
    let r := flushLoop rows none [] 0
    let t1 := (TagStore.set tags tag.STATEMENTS_UPDATED none c).2
    let t2 := TagStore.touchCommit t1 tag.JOURNAL_FLUSHED c
    (r.2, t2, r.1)

theorem flushLoop_count {α : Type} (rows : List (JRow α)) :
    ∀ (st : Option (FlushEvent α)) (acc : List (FlushEvent α)) (n : Nat),
      (flushLoop rows st acc n).2 = n + rows.length := by
  induction rows with
  | nil =>
    intro st acc n
    cases st with
    | none => simp [flushLoop]
    | some e => simp [flushLoop]
  | cons r rest ih =>
    intro st acc n
    cases st with
    | none =>
      rw [flushLoop, ih, List.length_cons]
      omega
    | some e =>
      obtain ⟨b, o, batch⟩ := e
      rw [flushLoop]
      by_cases h : r.bucket = b ∧ r.origin = o
      · rw [if_pos h, ih, List.length_cons]
        omega
      · rw [if_neg h, ih, List.length_cons]
        omega

theorem flushLoop_join {α : Type} (rows : List (JRow α)) :
    ∀ (st : Option (FlushEvent α)) (acc : List (FlushEvent α)) (n : Nat),
      ((flushLoop rows st acc n).1.map expandEvent).flatten
        = (acc.map expandEvent).flatten ++ stExpand st ++ rows.map JRow.rowKey := by
  induction rows with
  | nil =>
    intro st acc n
    cases st with
    | none => simp [flushLoop, stExpand]
    | some e => simp [flushLoop, stExpand]
  | cons r rest ih =>
    intro st acc n
    cases st with
    | none =>
      rw [flushLoop, ih]
      simp [stExpand, expandEvent, JRow.rowKey]
    | some e =>
      obtain ⟨b, o, batch⟩ := e
      rw [flushLoop]
      by_cases h : r.bucket = b ∧ r.origin = o
      · rw [if_pos h, ih]
        obtain ⟨hb, ho⟩ := h
        simp [stExpand, expandEvent, JRow.rowKey, hb, ho]
      · rw [if_neg h, ih]
        simp [stExpand, expandEvent, JRow.rowKey]

/-- Two writer events belong to different partitions when their
(bucket, origin) pairs differ. -/
def eventsDiffer {α : Type} (e1 e2 : FlushEvent α) : Prop :=
  ¬ (e1.1 = e2.1 ∧ e1.2.1 = e2.2.1)

theorem flushLoop_shape {α : Type} (rows : List (JRow α)) :
    ∀ (st : Option (FlushEvent α)) (acc : List (FlushEvent α)) (n : Nat),
      acc.Chain' eventsDiffer →
      (∀ e ∈ acc, e.2.2 ≠ []) →
      (∀ b o batch, st = some (b, o, batch) → batch ≠ [] ∧
        ∀ e, acc.getLast? = some e → ¬ (e.1 = b ∧ e.2.1 = o)) →
      (st = none → acc = []) →
      (flushLoop rows st acc n).1.Chain' eventsDiffer
        ∧ ∀ e ∈ (flushLoop rows st acc n).1, e.2.2 ≠ [] := by
  induction rows with
  | nil =>
    intro st acc n hchain hne hsome hnone
    cases st with
    | none =>
      rw [flushLoop]
      exact ⟨hchain, hne⟩
    | some e =>
      obtain ⟨b, o, batch⟩ := e
      rw [flushLoop]
      obtain ⟨hbatch, hlast⟩ := hsome b o batch rfl
      constructor
      · rw [List.chain'_append]
        refine ⟨hchain, List.chain'_singleton _, ?_⟩
        intro x hx y hy
        rw [List.head?_cons, Option.mem_some_iff] at hy
        subst hy
        exact hlast x hx
      · intro e he
        rcases List.mem_append.mp he with he | he
        · exact hne e he
        · rw [List.mem_singleton] at he
          subst he
          exact hbatch
  | cons r rest ih =>
    intro st acc n hchain hne hsome hnone
    cases st with
    | none =>
      have hacc : acc = [] := hnone rfl
      subst hacc
      rw [flushLoop]
      refine ih _ _ _ List.chain'_nil (by simp) ?_ (by intro h; cases h)
      intro b o batch heq
      injection heq with heq
      have hb : r.bucket = b := congrArg Prod.fst heq
      have ho : r.origin = o := congrArg (fun p => p.2.1) heq
      have hbt : [r.data] = batch := congrArg (fun p => p.2.2) heq
      subst hb
      subst ho
      subst hbt
      exact ⟨List.cons_ne_nil _ _, by simp⟩
    | some e =>
      obtain ⟨b, o, batch⟩ := e
      obtain ⟨hbatch, hlast⟩ := hsome b o batch rfl
      rw [flushLoop]
      by_cases h : r.bucket = b ∧ r.origin = o
      · rw [if_pos h]
        refine ih _ _ _ hchain hne ?_ (by intro hx; cases hx)
        intro b2 o2 batch2 heq
        injection heq with heq
        have hb2 : b = b2 := congrArg Prod.fst heq
        have ho2 : o = o2 := congrArg (fun p => p.2.1) heq
        have hbt : batch ++ [r.data] = batch2 := congrArg (fun p => p.2.2) heq
        subst hb2
        subst ho2
        subst hbt
        exact ⟨by simp, hlast⟩
      · rw [if_neg h]
        refine ih _ _ _ ?_ ?_ ?_ (by intro hx; cases hx)
        · rw [List.chain'_append]
          refine ⟨hchain, List.chain'_singleton _, ?_⟩
          intro x hx y hy
          rw [List.head?_cons, Option.mem_some_iff] at hy
          subst hy
          exact hlast x hx
        · intro e he
          rcases List.mem_append.mp he with he | he
          · exact hne e he
          · rw [List.mem_singleton] at he
            subst he
            exact hbatch
        · intro b2 o2 batch2 heq
          injection heq with heq
          have hb2 : r.bucket = b2 := congrArg Prod.fst heq
          have ho2 : r.origin = o2 := congrArg (fun p => p.2.1) heq
          have hbt : [r.data] = batch2 := congrArg (fun p => p.2.2) heq
          subst hb2
          subst ho2
          subst hbt
          refine ⟨List.cons_ne_nil _ _, ?_⟩
          intro e hlast2
          rw [List.getLast?_concat, Option.some_inj] at hlast2
          subst hlast2
          intro hcontra
          exact h ⟨hcontra.1.symm, hcontra.2.symm⟩

end EntityRepository

/-- C4: for every non-empty journal, `EntityRepository.flush()` processes
the journal rows in their streamed order keeping one current
(bucket, origin) pair and a single open parquet writer: the flushed-writer
trace partitions the row sequence exactly into its maximal consecutive
runs of equal (bucket, origin) (each writer opened for the origin of its
run, receiving precisely that run's statements in order, flushed once,
the final writer included; adjacent writers always belong to different
partitions); it sets the journal/last_flushed (the spec's journal/flushed)
and statements/last_updated tags and returns exactly the number of
statements moved. -/
theorem c4_flush_grouped_by_partition {α : Type} (rows : List (JRow α))
    (tags : TagMap) (c : Clock) (h : rows ≠ []) :
    (EntityRepository.flush rows tags c).1 = rows.length
    ∧ ((EntityRepository.flush rows tags c).2.2.map expandEvent).flatten
        = rows.map JRow.rowKey
    ∧ ((EntityRepository.flush rows tags c).2.2).Chain' EntityRepository.eventsDiffer
    ∧ (∀ e ∈ (EntityRepository.flush rows tags c).2.2, e.2.2 ≠ [])
    ∧ TagStore.get (EntityRepository.flush rows tags c).2.1 tag.JOURNAL_FLUSHED
        = some c.utcNow
    ∧ TagStore.get (EntityRepository.flush rows tags c).2.1 tag.STATEMENTS_UPDATED
        = some c.localNow := by
  have hlen : ¬ rows.length = 0 := by
    intro h0
    exact h (List.length_eq_zero.mp h0)
  have hkeys : tag.STATEMENTS_UPDATED ≠ tag.JOURNAL_FLUSHED := by decide
  unfold EntityRepository.flush
  rw [if_neg hlen]
  dsimp only
  refine ⟨?_, ?_, ?_, ?_, ?_, ?_⟩
  · rw [EntityRepository.flushLoop_count]
    simp
  · rw [EntityRepository.flushLoop_join]
    simp [stExpand]
  · exact (EntityRepository.flushLoop_shape rows none [] 0 List.chain'_nil
      (by simp) (by intro b o batch hx; cases hx) (fun _ => rfl)).1
  · exact (EntityRepository.flushLoop_shape rows none [] 0 List.chain'_nil
      (by simp) (by intro b o batch hx; cases hx) (fun _ => rfl)).2
  · rw [TagStore.touchCommit, TagStore.get_put_same]
  · rw [TagStore.touchCommit, TagStore.get_put_other _ _ _ _ (by decide)]
    simp [TagStore.set, Clock.localNow]

/-- C4 witness: three journal rows in streamed order with partitions
(thing, a), (thing, a), (intervals, a): the flush moves 3 statements and
commits the journal/last_flushed tag with the scope-entry UTC instant. -/
theorem c4_flush_grouped_by_partition_witness :
    (EntityRepository.flush
        [JRow.mk "i1" "thing" "a" "c1" (1 : Nat),
          JRow.mk "i2" "thing" "a" "c2" 2,
          JRow.mk "i3" "intervals" "a" "c3" 3] [] (Clock.mk 8 2)).1 = 3
    ∧ TagStore.get (EntityRepository.flush
        [JRow.mk "i1" "thing" "a" "c1" (1 : Nat),
          JRow.mk "i2" "thing" "a" "c2" 2,
          JRow.mk "i3" "intervals" "a" "c3" 3] [] (Clock.mk 8 2)).2.1
        tag.JOURNAL_FLUSHED = some 8 := by
  have h := c4_flush_grouped_by_partition
    [JRow.mk "i1" "thing" "a" "c1" (1 : Nat),
      JRow.mk "i2" "thing" "a" "c2" 2,
      JRow.mk "i3" "intervals" "a" "c3" 3] [] (Clock.mk 8 2)
    (List.cons_ne_nil _ _)
  exact ⟨h.1, h.2.2.2.2.1⟩

/-- C10: for the empty journal, `EntityRepository.flush()` returns 0 with
an empty writer trace (nothing written to the parquet store), writes the
journal/last_flushed and statements/last_updated tags only when the
respective tag does not yet exist (an already-present timestamp is left
unchanged), and leaves every other tag untouched. -/
theorem c10_flush_empty_journal {α : Type} (tags : TagMap) (c : Clock) :
    (EntityRepository.flush ([] : List (JRow α)) tags c).1 = 0
    ∧ (EntityRepository.flush ([] : List (JRow α)) tags c).2.2 = []
    ∧ (TagStore.existsKey tags tag.JOURNAL_FLUSHED = true →
        TagStore.get (EntityRepository.flush ([] : List (JRow α)) tags c).2.1
          tag.JOURNAL_FLUSHED = TagStore.get tags tag.JOURNAL_FLUSHED)
    ∧ (TagStore.existsKey tags tag.JOURNAL_FLUSHED = false →
        TagStore.get (EntityRepository.flush ([] : List (JRow α)) tags c).2.1
          tag.JOURNAL_FLUSHED = some c.localNow)
    ∧ (TagStore.existsKey tags tag.STATEMENTS_UPDATED = true →
        TagStore.get (EntityRepository.flush ([] : List (JRow α)) tags c).2.1
          tag.STATEMENTS_UPDATED = TagStore.get tags tag.STATEMENTS_UPDATED)
    ∧ (TagStore.existsKey tags tag.STATEMENTS_UPDATED = false →
        TagStore.get (EntityRepository.flush ([] : List (JRow α)) tags c).2.1
          tag.STATEMENTS_UPDATED = some c.localNow)
    ∧ (∀ k2, k2 ≠ tag.JOURNAL_FLUSHED → k2 ≠ tag.STATEMENTS_UPDATED →
        TagStore.get (EntityRepository.flush ([] : List (JRow α)) tags c).2.1 k2
          = TagStore.get tags k2) := by
  have hkeys : tag.JOURNAL_FLUSHED ≠ tag.STATEMENTS_UPDATED := by decide
  have hkeys2 : tag.STATEMENTS_UPDATED ≠ tag.JOURNAL_FLUSHED := fun hx => hkeys hx.symm
  unfold EntityRepository.flush
  rw [if_pos (show ([] : List (JRow α)).length = 0 from rfl)]
  dsimp only
  by_cases hjf : TagStore.existsKey tags tag.JOURNAL_FLUSHED
  · rw [if_pos hjf]
    by_cases hst : TagStore.existsKey tags tag.STATEMENTS_UPDATED
    · rw [if_pos hst]
      refine ⟨rfl, rfl, fun _ => rfl, ?_, fun _ => rfl, ?_, fun _ _ _ => rfl⟩
      · intro hcontra
        rw [hjf] at hcontra
        cases hcontra
      · intro hcontra
        rw [hst] at hcontra
        cases hcontra
    · rw [if_neg hst]
      refine ⟨rfl, rfl, ?_, ?_, ?_, ?_, ?_⟩
      · intro _
        exact TagStore.get_put_other _ _ _ _ hkeys2
      · intro hcontra
        rw [hjf] at hcontra
        cases hcontra
      · intro hst2
        exact absurd hst2 hst
      · intro _
        exact TagStore.get_put_same _ _ _
      · intro k2 _ hk2
        exact TagStore.get_put_other _ _ _ _ (fun hx => hk2 hx.symm)
  · rw [if_neg hjf]
    have hstp : TagStore.existsKey
        (TagStore.set tags tag.JOURNAL_FLUSHED none c).2 tag.STATEMENTS_UPDATED
        = TagStore.existsKey tags tag.STATEMENTS_UPDATED := by
      rw [TagStore.existsKey, TagStore.existsKey, TagStore.set]
      dsimp only
      rw [TagStore.get_put_other _ _ _ _ hkeys]
    by_cases hst : TagStore.existsKey tags tag.STATEMENTS_UPDATED
    · rw [if_pos (by rw [hstp]; exact hst)]
      refine ⟨rfl, rfl, ?_, ?_, ?_, ?_, ?_⟩
      · intro hcontra
        exact absurd hcontra hjf
      · intro _
        exact TagStore.get_put_same _ _ _
      · intro _
        exact TagStore.get_put_other _ _ _ _ hkeys
      · intro hcontra
        rw [hst] at hcontra
        cases hcontra
      · intro k2 hk2 _
        exact TagStore.get_put_other _ _ _ _ (fun hx => hk2 hx.symm)
    · rw [if_neg (by rw [hstp]; exact hst)]
      refine ⟨rfl, rfl, ?_, ?_, ?_, ?_, ?_⟩
      · intro hcontra
        exact absurd hcontra hjf
      · intro _
        show TagStore.get
          (TagStore.put (TagStore.put tags tag.JOURNAL_FLUSHED c.localNow)
            tag.STATEMENTS_UPDATED c.localNow) tag.JOURNAL_FLUSHED = some c.localNow
        rw [TagStore.get_put_other _ _ _ _ hkeys2]
        exact TagStore.get_put_same _ _ _
      · intro hcontra
        exact absurd hcontra hst
      · intro _
        exact TagStore.get_put_same _ _ _
      · intro k2 hk2 hk2b
        show TagStore.get
          (TagStore.put (TagStore.put tags tag.JOURNAL_FLUSHED c.localNow)
            tag.STATEMENTS_UPDATED c.localNow) k2 = TagStore.get tags k2
        rw [TagStore.get_put_other _ _ _ _ (fun hx => hk2b hx.symm)]
        exact TagStore.get_put_other _ _ _ _ (fun hx => hk2 hx.symm)

/-- C10 witness: on the empty journal with only the journal/last_flushed
tag present (value 1), the flush keeps that value and initialises the
missing statements/last_updated tag with the current time. -/
theorem c10_flush_empty_journal_witness :
    TagStore.get (EntityRepository.flush ([] : List (JRow Nat))
        [("journal/last_flushed", 1)] (Clock.mk 5 2)).2.1 tag.JOURNAL_FLUSHED
      = some 1
    ∧ TagStore.get (EntityRepository.flush ([] : List (JRow Nat))
        [("journal/last_flushed", 1)] (Clock.mk 5 2)).2.1 tag.STATEMENTS_UPDATED
      = some 7 := by
  have h := c10_flush_empty_journal (α := Nat)
    [("journal/last_flushed", 1)] (Clock.mk 5 2)
  constructor
  · rw [h.2.2.1 (by decide)]
    decide
  · rw [h.2.2.2.2.2.1 (by decide)]
    decide

/-- Record of the diff file written by one `export_diff` invocation: either
the initial full-copy diff or an incremental delta for the collected
changed entity ids. -/
inductive DiffWrite where
  | initialCopy (v : Nat) (ts : Int)
  | delta (ids : List String) (v : Nat) (ts : Int)
deriving Repr, DecidableEq

/-- Embedding of `ParquetDiffMixin.export_diff`
(src/ftm_lakehouse/repository/diff.py, lines 78-141):

    with self._tags.touch(self._diff_base_path) as now:
        current_version = self._statements.version
        current_timestamp = now.astimezone(timezone.utc)
        if current_version is None:
            return
        diff_name = pack_diff_name(current_version, current_timestamp)
        state = self._get_diff_state()
        if state is not None:
            last_version, _ = state
        else:
            last_version = None
        if last_version is None:
            self._write_initial_diff(current_version, current_timestamp, **kwargs)
            self._set_diff_state(diff_name)
            return diff_name
        if last_version >= current_version:
            return
        start_version = last_version + 1
        changes = self._statements.get_changes(start_version, current_version)
        changed_entity_ids = self._filter_changes(changes)
        if not changed_entity_ids:
            return
        diff_uri = self._write_diff(changed_entity_ids, current_version,
                                    current_timestamp, **kwargs)
        self._set_diff_state(diff_name)
        return diff_name

Modelling notes: the delta-table version is `version` (`None` when no
table exists); the stored diff state is modelled in its parsed form
`(version, ts)` (the `pack_diff_name`/`unpack_diff_name` string round-trip
through the tag store is not modelled); `now` is the UTC instant captured
by the touch scope; the subclass hooks `get_changes` and `_filter_changes`
are parameters; the file writes `_write_initial_diff`/`_write_diff` are
recorded as a `DiffWrite` value.  Returns the returned diff name, the
resulting diff state and the recorded write. -/
def ParquetDiffMixin.export_diff {γ : Type} (getChanges : Nat → Nat → List γ)
    (filterChs : List γ → List String) (version : Option Nat)
    (state : Option (Nat × Int)) (now : Int) :
    Option (Nat × Int) × Option (Nat × Int) × Option DiffWrite :=
  match version with
  | none => (none, state, none)
  | some v =>
    let diff_name := (v, now)
    match state with
    | none => (some diff_name, some diff_name, some (DiffWrite.initialCopy v now))
    | some (last_version, lastTs) =>
      if last_version ≥ v then (none, some (last_version, lastTs), none)
      else
        let changed := filterChs (getChanges (last_version + 1) v)
        if changed.isEmpty then (none, some (last_version, lastTs), none)
        else (some diff_name, some diff_name, some (DiffWrite.delta changed v now))

/-- C5 (counterexample): the claim states that whenever the last state
version v_prev is smaller than the store version v, `export_diff` fetches
the changes, writes the output diff file and persists the new state.  With
store version 2, last state (1, 0) and a CDC window yielding no relevant
entity ids, the code writes nothing and leaves the state at version 1. -/
theorem c5_export_diff_cex :
    (1 : Nat) < 2
    ∧ ParquetDiffMixin.export_diff (γ := String) (fun _ _ => []) id
        (some 2) (some (1, 0)) 5 = (none, some (1, 0), none) := by
  constructor
  · decide
  · rfl

/-- C5 (amended): for every call to `export_diff`: if the statement store
version v is null it returns with no diff written; if a last state with
version v_prev exists and v_prev is at least v, it returns with no diff
written and the stored state unchanged; if no last state exists it writes
the initial full-copy diff and persists (v, now); if v_prev is smaller
than v it fetches the changes for versions v_prev+1 through v and, when
they yield at least one relevant entity id, writes the delta diff and
persists (v, now) — when they yield none it returns with no diff written
and the state unchanged.  Consequently, whenever a diff file is written
the persisted version is the store version v, strictly greater than any
previously stored version, so the recorded version strictly increases
across successful diff exports and no earlier diff is regenerated. -/
theorem c5_export_diff_monotonic {γ : Type} (getChanges : Nat → Nat → List γ)
    (filterChs : List γ → List String) (version : Option Nat)
    (state : Option (Nat × Int)) (now : Int) :
    (version = none →
      ParquetDiffMixin.export_diff getChanges filterChs version state now
        = (none, state, none))
    ∧ (∀ v, version = some v → state = none →
      ParquetDiffMixin.export_diff getChanges filterChs version state now
        = (some (v, now), some (v, now), some (DiffWrite.initialCopy v now)))
    ∧ (∀ v lv lts, version = some v → state = some (lv, lts) → lv ≥ v →
      ParquetDiffMixin.export_diff getChanges filterChs version state now
        = (none, some (lv, lts), none))
    ∧ (∀ v lv lts, version = some v → state = some (lv, lts) → lv < v →
        filterChs (getChanges (lv + 1) v) = [] →
      ParquetDiffMixin.export_diff getChanges filterChs version state now
        = (none, some (lv, lts), none))
    ∧ (∀ v lv lts, version = some v → state = some (lv, lts) → lv < v →
        filterChs (getChanges (lv + 1) v) ≠ [] →
      ParquetDiffMixin.export_diff getChanges filterChs version state now
        = (some (v, now), some (v, now),
            some (DiffWrite.delta (filterChs (getChanges (lv + 1) v)) v now)))
    ∧ (∀ w, (ParquetDiffMixin.export_diff getChanges filterChs version state now).2.2
          = some w →
        ∃ v, version = some v
          ∧ (ParquetDiffMixin.export_diff getChanges filterChs version state now).2.1
              = some (v, now)
          ∧ ∀ lv lts, state = some (lv, lts) → lv < v) := by
  refine ⟨?_, ?_, ?_, ?_, ?_, ?_⟩
  · rintro rfl
    rfl
  · rintro v rfl rfl
    rfl
  · rintro v lv lts rfl rfl hge
    unfold ParquetDiffMixin.export_diff
    dsimp only
    rw [if_pos hge]
  · rintro v lv lts rfl rfl hlt hnil
    unfold ParquetDiffMixin.export_diff
    dsimp only
    rw [if_neg (by omega), if_pos (by rw [hnil]; rfl)]
  · rintro v lv lts rfl rfl hlt hne
    unfold ParquetDiffMixin.export_diff
    dsimp only
    rw [if_neg (by omega), if_neg (by
      intro hx
      exact hne (List.isEmpty_iff.mp hx))]
  · intro w hw
    cases version with
    | none =>
      exact absurd hw (by simp [ParquetDiffMixin.export_diff])
    | some v =>
      refine ⟨v, rfl, ?_, ?_⟩
      · cases state with
        | none => rfl
        | some p =>
          obtain ⟨lv, lts⟩ := p
          unfold ParquetDiffMixin.export_diff at hw ⊢
          dsimp only at hw ⊢
          by_cases hge : lv ≥ v
          · rw [if_pos hge] at hw
            cases hw
          · rw [if_neg hge] at hw ⊢
            by_cases hemp : (filterChs (getChanges (lv + 1) v)).isEmpty
            · rw [if_pos hemp] at hw
              cases hw
            · rw [if_neg hemp]
      · intro lv lts hstate
        subst hstate
        unfold ParquetDiffMixin.export_diff at hw
        dsimp only at hw
        by_cases hge : lv ≥ v
        · rw [if_pos hge] at hw
          cases hw
        · omega

/-- C5 witness: with store version 2, last state (1, 0) and one changed
entity id in the CDC window, `export_diff` writes the delta for version 2
and persists (2, now). -/
theorem c5_export_diff_monotonic_witness :
    ParquetDiffMixin.export_diff (γ := String) (fun _ _ => ["e1"]) id
        (some 2) (some (1, 0)) 5
      = (some (2, 5), some (2, 5), some (DiffWrite.delta ["e1"] 2 5)) := by
  exact (c5_export_diff_monotonic (fun _ _ => ["e1"]) id
    (some 2) (some (1, 0)) 5).2.2.2.2.1 2 1 0 rfl rfl (by decide) (by decide)
